import Mathlib

/-!
# emailID-finder: candidate generation and SMTP verification

A shallow embedding of `main.go`.  Go strings are byte sequences, so a string is
a list of byte values; slicing `s[:1]` takes one byte and panics on the empty
string; `strings.ToLower` works on UTF-8 encoded code points.
-/

namespace EmailFinder

/-- A Go string: its sequence of bytes. -/
abbrev Str := List Nat

/-- The bytes of a string literal made of ASCII characters only. -/
def ascii (s : String) : Str := s.data.map Char.toNat

/-! ## UTF-8 (package `unicode/utf8`) -/

/-- The code point U+FFFD that stands for an undecodable byte. -/
def RuneError : Nat := 0xFFFD

/-- A continuation byte, `0x80 ..= 0xBF`. -/
def isCont (b : Nat) : Bool := 0x80 ≤ b && b ≤ 0xBF

/-- `utf8.DecodeRuneInString` on the non-empty string `b0 :: rest`: the code
point and the number of bytes it takes.  An ill-formed sequence decodes to
`RuneError` with width one. -/
def decodeRune (b0 : Nat) (rest : Str) : Nat × Nat :=
  if b0 < 0x80 then (b0, 1)
  else if 0xC2 ≤ b0 && b0 ≤ 0xDF then
    match rest with
    | b1 :: _ => if isCont b1 then ((b0 % 0x20) * 0x40 + b1 % 0x40, 2) else (RuneError, 1)
    | _ => (RuneError, 1)
  else if 0xE0 ≤ b0 && b0 ≤ 0xEF then
    match rest with
    | b1 :: b2 :: _ =>
      let lo := if b0 = 0xE0 then 0xA0 else 0x80
      let hi := if b0 = 0xED then 0x9F else 0xBF
      if lo ≤ b1 && b1 ≤ hi && isCont b2 then
        ((b0 % 0x10) * 0x1000 + (b1 % 0x40) * 0x40 + b2 % 0x40, 3)
      else (RuneError, 1)
    | _ => (RuneError, 1)
  else if 0xF0 ≤ b0 && b0 ≤ 0xF4 then
    match rest with
    | b1 :: b2 :: b3 :: _ =>
      let lo := if b0 = 0xF0 then 0x90 else 0x80
      let hi := if b0 = 0xF4 then 0x8F else 0xBF
      if lo ≤ b1 && b1 ≤ hi && isCont b2 && isCont b3 then
        ((b0 % 0x08) * 0x40000 + (b1 % 0x40) * 0x1000 + (b2 % 0x40) * 0x40 + b3 % 0x40, 4)
      else (RuneError, 1)
    | _ => (RuneError, 1)
  else (RuneError, 1)

/-- The code points met by `for _, c := range s`; the first argument counts the
bytes of the current code point that are still to be passed over. -/
def runesFrom : Nat → Str → List Nat
  | _, [] => []
  | k + 1, _ :: rest => runesFrom k rest
  | 0, b :: rest => (decodeRune b rest).1 :: runesFrom ((decodeRune b rest).2 - 1) rest

/-- The code points of a string, in order. -/
def runes (s : Str) : List Nat := runesFrom 0 s

/-- `utf8.AppendRune`: the UTF-8 encoding of a code point; surrogates and values
above U+10FFFF are written as `RuneError`. -/
def encodeRune (r : Nat) : Str :=
  if r ≤ 0x7F then [r]
  else if r ≤ 0x7FF then [0xC0 + r / 0x40, 0x80 + r % 0x40]
  else if 0x10FFFF < r || (0xD800 ≤ r && r ≤ 0xDFFF) then [0xEF, 0xBF, 0xBD]
  else if r ≤ 0xFFFF then [0xE0 + r / 0x1000, 0x80 + r / 0x40 % 0x40, 0x80 + r % 0x40]
  else [0xF0 + r / 0x40000, 0x80 + r / 0x1000 % 0x40, 0x80 + r / 0x40 % 0x40, 0x80 + r % 0x40]

/-! ## Package `strings` -/

/-- `strings.Map` for a mapping that never returns a negative value: every code
point of `s` is replaced by the encoding of its image. -/
def mapRunes (mapping : Nat → Nat) (s : Str) : Str :=
  (runes s).flatMap (fun c => encodeRune (mapping c))

/-- The ASCII branch of lowercasing: `A ..= Z` move by 32. -/
def lowerASCII (c : Nat) : Nat := if 0x41 ≤ c && c ≤ 0x5A then c + 32 else c

/-- `unicode.ToLower`.  Above ASCII the answer comes from the Unicode case
table, which is not part of this repository and is the parameter `tbl`. -/
def unicodeToLower (tbl : Nat → Nat) (r : Nat) : Nat :=
  if r ≤ 0x7F then lowerASCII r else tbl r

/-- Every byte is below `utf8.RuneSelf`. -/
def isASCII (s : Str) : Bool := s.all (fun c => decide (c < 0x80))

/-- `strings.ToLower`: a byte-wise pass for an ASCII string, `strings.Map` with
`unicode.ToLower` otherwise. -/
def toLower (tbl : Nat → Nat) (s : Str) : Str :=
  if isASCII s then s.map lowerASCII else mapRunes (unicodeToLower tbl) s

/-- `strings.TrimSuffix s suffix`. -/
def trimSuffix (s suffix : Str) : Str :=
  if suffix <:+ s then s.take (s.length - suffix.length) else s

/-- `strings.Contains s substr`. -/
def contains (s substr : Str) : Bool := decide (substr <:+: s)

/-! ## Candidate generation -/

/-- The slice expression `s[:1]`; `none` is the run-time panic on an empty
string. -/
def slice1 : Str → Option Str
  | [] => none
  | b :: _ => some [b]

/-- `fmt.Sprintf("%s@%s", a, d)`. -/
def fmtAt (a d : Str) : Str := a ++ ascii "@" ++ d

/-- `fmt.Sprintf("%s.%s@%s", a, b, d)`. -/
def fmtDot (a b d : Str) : Str := a ++ ascii "." ++ b ++ ascii "@" ++ d

/-- `fmt.Sprintf("%s%s@%s", a, b, d)`. -/
def fmtCat (a b d : Str) : Str := a ++ b ++ ascii "@" ++ d

/-- `fmt.Sprintf("%s_%s@%s", a, b, d)`. -/
def fmtUnder (a b d : Str) : Str := a ++ ascii "_" ++ b ++ ascii "@" ++ d

/-- `fmt.Sprintf("%s-%s@%s", a, b, d)`. -/
def fmtDash (a b d : Str) : Str := a ++ ascii "-" ++ b ++ ascii "@" ++ d

/-- `generateEmailPermutations`; `none` is the panic raised by `firstName[:1]`
or `lastName[:1]` on an empty name. -/
def generateEmailPermutations (tbl : Nat → Nat) (firstName lastName domain : Str) :
    Option (List Str) :=
  let firstName := toLower tbl firstName
  let lastName := toLower tbl lastName
  let domain := toLower tbl domain
  (slice1 firstName).bind fun f1 =>
  (slice1 lastName).bind fun l1 =>
  some [
    fmtAt firstName domain,
    fmtDot firstName lastName domain,
    fmtCat firstName lastName domain,
    fmtDot f1 lastName domain,
    fmtCat f1 lastName domain,
    fmtDot firstName l1 domain,
    fmtCat firstName l1 domain,
    fmtUnder firstName lastName domain,
    fmtDash firstName lastName domain,
    fmtAt lastName domain,
    fmtDot lastName firstName domain,
    fmtCat lastName firstName domain,
    fmtDot l1 firstName domain,
    fmtCat l1 firstName domain,
    fmtUnder lastName firstName domain,
    fmtDash lastName firstName domain,
    fmtUnder f1 lastName domain,
    fmtDash f1 lastName domain,
    fmtUnder l1 firstName domain,
    fmtDash l1 firstName domain,
    fmtCat lastName f1 domain,
    fmtDot lastName f1 domain,
    fmtUnder lastName f1 domain,
    fmtDash lastName f1 domain,
    fmtAt f1 domain,
    fmtAt l1 domain,
    fmtCat f1 l1 domain,
    fmtDot f1 l1 domain,
    fmtUnder f1 l1 domain,
    fmtDash f1 l1 domain,
    fmtCat l1 f1 domain,
    fmtDot l1 f1 domain,
    fmtUnder l1 f1 domain,
    fmtDash l1 f1 domain]

/-! ## DNS, the mail server and one SMTP probe

Every answer of the outside world is a parameter of the model.  An error value
is `Option Str`: `none` is Go's `nil`, `some msg` an error whose `Error()` text
is `msg`. -/

/-- One record of `net.LookupMX`. -/
structure MX where
  host : Str
  pref : Nat

/-- What DNS and the mail server answer to one run of `verifyEmail`. -/
structure Net where
  /-- `net.LookupMX(domain)`: the records and the error. -/
  lookupMX : Str → List MX × Option Str
  /-- `net.DialTimeout("tcp", address, 10s)`. -/
  dial : Str → Option Str
  /-- `smtp.NewClient(conn, host)`. -/
  newClient : Str → Option Str
  /-- `client.Hello(localName)`. -/
  hello : Str → Option Str
  /-- `client.Mail(from)`. -/
  mail : Str → Option Str
  /-- `client.Rcpt(to)`: `none` when the server accepts, otherwise the text of
  `err.Error()`, which the library builds from the reply. -/
  rcpt : Str → Option Str

/-- A stored row of `email_cache` (the columns the program writes). -/
structure Row where
  firstName : Str
  lastName : Str
  companyWebsite : Str
  email : Str
  deriving DecidableEq

/-- The calls that leave the process, in the order they are made. -/
inductive Event where
  | lookupMX (domain : Str)
  | dial (address : Str)
  | newClient (host : Str)
  | hello (localName : Str)
  | mail (sender : Str)
  | rcpt (email : Str)
  | cacheQuery
  | domainQuery
  | insert (row : Row)
  deriving DecidableEq

/-- The test on the text of a failed `RCPT TO` (the five `strings.Contains`). -/
def softFail (errorMessage : Str) : Bool :=
  contains errorMessage (ascii "450 4.2.1") ||
  contains errorMessage (ascii "452 4.2.2") ||
  contains errorMessage (ascii "451 4.4.1") ||
  contains errorMessage (ascii "421 4.7.0") ||
  contains errorMessage (ascii "450 4.7.1")

/-- `verifyEmail`: the verdict and the calls made. -/
def verifyEmail (net : Net) (email domainName : Str) : Bool × List Event :=
  match net.lookupMX domainName with
  | (_, some _) => (false, [Event.lookupMX domainName])
  | ([], none) => (false, [Event.lookupMX domainName])
  | (mx :: _, none) =>
    let mailExchange := trimSuffix mx.host (ascii ".")
    let serverAddress := mailExchange ++ ascii ":25"
    match net.dial serverAddress with
    | some _ => (false, [Event.lookupMX domainName, Event.dial serverAddress])
    | none =>
      match net.newClient domainName with
      | some _ =>
        (false, [Event.lookupMX domainName, Event.dial serverAddress, Event.newClient domainName])
      | none =>
        match net.hello (ascii "example.com") with
        | some _ =>
          (false, [Event.lookupMX domainName, Event.dial serverAddress,
            Event.newClient domainName, Event.hello (ascii "example.com")])
        | none =>
          match net.mail (ascii "test@example.com") with
          | some _ =>
            (false, [Event.lookupMX domainName, Event.dial serverAddress,
              Event.newClient domainName, Event.hello (ascii "example.com"),
              Event.mail (ascii "test@example.com")])
          | none =>
            let log := [Event.lookupMX domainName, Event.dial serverAddress,
              Event.newClient domainName, Event.hello (ascii "example.com"),
              Event.mail (ascii "test@example.com"), Event.rcpt email]
            match net.rcpt email with
            | some errorMessage => if softFail errorMessage then (true, log) else (false, log)
            | none => (true, log)

/-! ## The verification engine

`verifyEmailsAsync` starts one goroutine per candidate; goroutine `i` runs
`verifyEmail` (answered by `net i`) and, when the verdict is true, appends its
candidate to `validEmails` while holding the mutex.  `wg.Wait()` returns when
no goroutine is left.  The scheduler is the parameter `pick`: with `k`
goroutines still to finish it lets number `pick k % k` of them finish next. -/

/-- The join loop: `pending` are the goroutines not yet finished, the pair is
`validEmails` and the calls made so far. -/
def joinLoop (net : Nat → Net) (pick : Nat → Nat) (domain : Str) :
    Nat → List (Nat × Str) → List Str × List Event → List Str × List Event
  | 0, _, st => st
  | fuel + 1, pending, st =>
    match pending[pick pending.length % pending.length]? with
    | none => st
    | some g =>
      let r := verifyEmail (net g.1) g.2 domain
      joinLoop net pick domain fuel (pending.eraseIdx (pick pending.length % pending.length))
        (if r.1 then st.1 ++ [g.2] else st.1, st.2 ++ r.2)

/-- `verifyEmailsAsync`: `validEmails` after `wg.Wait()`, and the calls made. -/
def verifyEmailsAsync (net : Nat → Net) (pick : Nat → Nat) (emails : List Str) (domain : Str) :
    List Str × List Event :=
  joinLoop net pick domain emails.length emails.enum ([], [])

/-! ## The store -/

/-- The decoded body of a `/find-email` request. -/
structure InputData where
  FirstName : Str
  LastName : Str
  CompanyWebsite : Str

/-- The decoded body of a `/search-domain` request. -/
structure DomainSearchInput where
  Domain : Str

/-- How the database driver answers.  A query yields an error or the row set,
each row being the result of its `rows.Scan`. -/
structure Driver where
  /-- The `SELECT email ... WHERE first_name = $1 AND ...` of `getCachedEmails`. -/
  queryCache : List Row → InputData → Except Str (List (Except Str Str))
  /-- The `SELECT DISTINCT email ... LIKE $1` of `getEmailsByDomain`. -/
  queryDomain : List Row → Str → Except Str (List (Except Str Str))
  /-- `db.Begin()`. -/
  begin : Option Str
  /-- The `tx.Exec` of insert number `k`. -/
  exec : Nat → Option Str
  /-- `tx.Commit()`. -/
  commit : Option Str

/-- The rows selected by the cache query, read off the table in order. -/
def selectCached (db : List Row) (input : InputData) : List Str :=
  (db.filter fun r => decide (r.firstName = input.FirstName ∧ r.lastName = input.LastName ∧
    r.companyWebsite = input.CompanyWebsite)).map Row.email

/-- The loop `for rows.Next() { rows.Scan(&email); emails = append(emails, email) }`
with its early return on a scan error. -/
def scanRows : List (Except Str Str) → Except Str (List Str)
  | [] => .ok []
  | .error e :: _ => .error e
  | .ok email :: rest =>
    match scanRows rest with
    | .error e => .error e
    | .ok emails => .ok (email :: emails)

/-- `getCachedEmails`. -/
def getCachedEmails (drv : Driver) (db : List Row) (input : InputData) : Except Str (List Str) :=
  match drv.queryCache db input with
  | .error e => .error e
  | .ok rows => scanRows rows

/-- `getEmailsByDomain`. -/
def getEmailsByDomain (drv : Driver) (db : List Row) (domain : Str) : Except Str (List Str) :=
  match drv.queryDomain db domain with
  | .error e => .error e
  | .ok rows => scanRows rows

/-- The insert loop of `storeEmails`: `k` counts the inserts already made, `tx`
holds their rows.  The result is the error that stops the loop, the rows of the
transaction and the inserts sent. -/
def execInserts (drv : Driver) (input : InputData) :
    List Str → Nat → List Row → Option Str × List Row × List Event
  | [], _, tx => (none, tx, [])
  | email :: rest, k, tx =>
    let row : Row := ⟨input.FirstName, input.LastName, input.CompanyWebsite, email⟩
    match drv.exec k with
    | some e => (some e, tx, [Event.insert row])
    | none =>
      let r := execInserts drv input rest (k + 1) (tx ++ [row])
      (r.1, r.2.1, Event.insert row :: r.2.2)

/-- `storeEmails`: the returned error, the table afterwards and the inserts sent.
A transaction that is rolled back or whose commit fails leaves the table as it
was. -/
def storeEmails (drv : Driver) (db : List Row) (input : InputData) (emails : List Str) :
    Option Str × List Row × List Event :=
  match drv.begin with
  | some e => (some e, db, [])
  | none =>
    match execInserts drv input emails 0 [] with
    | (some e, _, log) => (some e, db, log)
    | (none, tx, log) =>
      match drv.commit with
      | some e => (some e, db, log)
      | none => (none, db ++ tx, log)

/-! ## The two handlers -/

/-- What a handler writes: `json.NewEncoder(w).Encode(OutputData{Emails: emails})`
or `http.Error(w, msg, status)`. -/
inductive Response where
  | ok (emails : List Str)
  | error (status : Nat) (msg : Str)
  deriving DecidableEq

/-- How a handler ends: with a response, or with a run-time panic before
anything was written. -/
inductive Outcome where
  | responded (r : Response)
  | panicked
  deriving DecidableEq

/-- Everything outside the program. -/
structure World where
  /-- The Unicode case table. -/
  tbl : Nat → Nat
  /-- The network as seen by goroutine `i`. -/
  net : Nat → Net
  /-- The scheduler. -/
  pick : Nat → Nat
  /-- The database driver. -/
  drv : Driver

/-- `http.StatusBadRequest`. -/
def StatusBadRequest : Nat := 400

/-- `http.StatusNotFound`. -/
def StatusNotFound : Nat := 404

/-- `http.StatusInternalServerError`. -/
def StatusInternalServerError : Nat := 500

/-- The part of `findEmailHandler` after the cache lookup did not answer:
generation, verification, and the write-back. -/
def findEmailLive (w : World) (db : List Row) (input : InputData) :
    Outcome × List Row × List Event :=
  match generateEmailPermutations w.tbl input.FirstName input.LastName input.CompanyWebsite with
  | none => (Outcome.panicked, db, [Event.cacheQuery])
  | some emails =>
    let v := verifyEmailsAsync w.net w.pick emails input.CompanyWebsite
    if v.1.length > 0 then
      let s := storeEmails w.drv db input v.1
      (Outcome.responded (Response.ok v.1), s.2.1, Event.cacheQuery :: (v.2 ++ s.2.2))
    else
      (Outcome.responded (Response.error StatusNotFound (ascii "No valid emails found")), db,
        Event.cacheQuery :: v.2)

/-- `findEmailHandler` on the result `body` of decoding the request: the
outcome, the table afterwards and the calls made. -/
def findEmailHandler (w : World) (db : List Row) (body : Except Str InputData) :
    Outcome × List Row × List Event :=
  match body with
  | .error e => (Outcome.responded (Response.error StatusBadRequest e), db, [])
  | .ok input =>
    match getCachedEmails w.drv db input with
    | .ok (e :: es) => (Outcome.responded (Response.ok (e :: es)), db, [Event.cacheQuery])
    | _ => findEmailLive w db input

/-- `searchDomainHandler` on the result `body` of decoding the request. -/
def searchDomainHandler (w : World) (db : List Row) (body : Except Str DomainSearchInput) :
    Outcome × List Event :=
  match body with
  | .error e => (Outcome.responded (Response.error StatusBadRequest e), [])
  | .ok input =>
    match getEmailsByDomain w.drv db input.Domain with
    | .error _ =>
      (Outcome.responded (Response.error StatusInternalServerError (ascii "Error fetching emails")),
        [Event.domainQuery])
    | .ok [] =>
      (Outcome.responded
        (Response.error StatusNotFound (ascii "No emails found for the given domain")),
        [Event.domainQuery])
    | .ok (e :: es) => (Outcome.responded (Response.ok (e :: es)), [Event.domainQuery])

/-! ## Vocabulary of the properties -/

/-- Every byte is ASCII and none is an upper-case letter. -/
def IsLowerASCII (s : Str) : Prop := ∀ b ∈ s, b < 0x80 ∧ ¬ (0x41 ≤ b ∧ b ≤ 0x5A)

instance : DecidablePred IsLowerASCII := fun s => by
  unfold IsLowerASCII
  infer_instance

/-- The number of MX lookups in a log. -/
def mxLookups (log : List Event) : Nat :=
  log.countP fun ev => match ev with
    | Event.lookupMX _ => true
    | _ => false

/-- The number of connections opened in a log. -/
def dials (log : List Event) : Nat :=
  log.countP fun ev => match ev with
    | Event.dial _ => true
    | _ => false

/-- The number of recipient checks in a log. -/
def rcpts (log : List Event) : Nat :=
  log.countP fun ev => match ev with
    | Event.rcpt _ => true
    | _ => false

/-- The number of inserts sent to the store in a log. -/
def inserts (log : List Event) : Nat :=
  log.countP fun ev => match ev with
    | Event.insert _ => true
    | _ => false

/-- MX resolution of `domain` fails or returns no record. -/
def noMX (net : Net) (domain : Str) : Bool :=
  (net.lookupMX domain).2.isSome || (net.lookupMX domain).1.isEmpty

/-- The rows `storeEmails` inserts for one request, one per address. -/
def rowsOf (input : InputData) (emails : List Str) : List Row :=
  emails.map fun email => ⟨input.FirstName, input.LastName, input.CompanyWebsite, email⟩

/-- A domain with the one exchanger `mx.example.com.` whose server takes the
connection, the greeting and the sender, and whose recipient check ends with
the error `rcpt` (its text, or `none`). -/
def mailServer (rcpt : Str → Option Str) : Net where
  lookupMX := fun _ => ([⟨ascii "mx.example.com.", 10⟩], none)
  dial := fun _ => none
  newClient := fun _ => none
  hello := fun _ => none
  mail := fun _ => none
  rcpt := rcpt

/-- A domain whose MX lookup fails. -/
def noSuchDomain : Net where
  lookupMX := fun _ => ([], some (ascii "no such host"))
  dial := fun _ => none
  newClient := fun _ => none
  hello := fun _ => none
  mail := fun _ => none
  rcpt := fun _ => none

/-- A store that answers every statement as the table stands; the domain search
is left empty. -/
def listStore : Driver where
  queryCache := fun db input => .ok ((selectCached db input).map .ok)
  queryDomain := fun _ _ => .ok []
  begin := none
  exec := fun _ => none
  commit := none

/-- The request `John` / `Doe` / `example.com`. -/
def johnDoe : InputData := ⟨ascii "John", ascii "Doe", ascii "example.com"⟩

/-- A world whose mail domain cannot be resolved, with an empty working store. -/
def deadDomainWorld : World where
  tbl := fun r => r
  net := fun _ => noSuchDomain
  pick := fun _ => 0
  drv := listStore

/-- A world whose mail server knows `john.doe@example.com` only, with a working
store, where goroutines finish in the order they were started. -/
def liveWorld : World where
  tbl := fun r => r
  net := fun _ => mailServer fun email =>
    if email = ascii "john.doe@example.com" then none else some (ascii "550 no such user")
  pick := fun _ => 0
  drv := listStore

/-! ## Lowercasing -/

theorem toLower_nil (tbl : Nat → Nat) : toLower tbl [] = [] := rfl

theorem toLower_of_isASCII (tbl : Nat → Nat) (s : Str) (h : isASCII s = true) :
    toLower tbl s = s.map lowerASCII := by
  simp [toLower, h]

theorem encodeRune_ne_nil (r : Nat) : encodeRune r ≠ [] := by
  unfold encodeRune
  split_ifs <;> simp

theorem toLower_eq_nil_iff (tbl : Nat → Nat) (s : Str) : toLower tbl s = [] ↔ s = [] := by
  constructor
  · intro h
    cases s with
    | nil => rfl
    | cons b rest =>
      exfalso
      unfold toLower at h
      split_ifs at h
      · simp at h
      · simp only [mapRunes, runes, runesFrom, List.flatMap_cons, List.append_eq_nil] at h
        exact encodeRune_ne_nil _ h.1
  · rintro rfl
    rfl

/-- Two case tables that agree on the non-ASCII code points of `s` lowercase `s`
alike. -/
theorem toLower_congr (tbl tbl2 : Nat → Nat) (s : Str)
    (h : ∀ r ∈ runes s, 0x7F < r → tbl r = tbl2 r) : toLower tbl s = toLower tbl2 s := by
  unfold toLower mapRunes
  split_ifs
  · rfl
  · simp only [List.flatMap]
    congr 1
    apply List.map_congr_left
    intro r hr
    unfold unicodeToLower
    split_ifs with hle
    · rfl
    · rw [h r hr (by omega)]

theorem slice1_eq_none_iff (s : Str) : slice1 s = none ↔ s = [] := by
  cases s <;> simp [slice1]

/-- Generation panics exactly on an empty name. -/
theorem generateEmailPermutations_eq_none_iff (tbl : Nat → Nat) (firstName lastName domain : Str) :
    generateEmailPermutations tbl firstName lastName domain = none ↔
      firstName = [] ∨ lastName = [] := by
  rw [← toLower_eq_nil_iff tbl firstName, ← toLower_eq_nil_iff tbl lastName]
  unfold generateEmailPermutations
  cases toLower tbl firstName <;> cases toLower tbl lastName <;> simp [slice1]

/-! ## Candidate generation: what holds for every request -/

theorem isLowerASCII_append {a b : Str} (ha : IsLowerASCII a) (hb : IsLowerASCII b) :
    IsLowerASCII (a ++ b) := by
  intro x hx
  rcases List.mem_append.1 hx with h | h
  · exact ha x h
  · exact hb x h

theorem toLower_of_isLowerASCII (tbl : Nat → Nat) (s : Str) (h : IsLowerASCII s) :
    toLower tbl s = s := by
  have hascii : isASCII s = true := by
    simp only [isASCII, List.all_eq_true, decide_eq_true_eq]
    exact fun b hb => (h b hb).1
  rw [toLower_of_isASCII tbl s hascii]
  conv_rhs => rw [← List.map_id s]
  apply List.map_congr_left
  intro b hb
  have := (h b hb).2
  simp only [lowerASCII, id]
  split_ifs with hc
  · exact absurd (by simpa using hc) this
  · rfl

theorem isLowerASCII_toLower (tbl : Nat → Nat) (s : Str) (h : isASCII s = true) :
    IsLowerASCII (toLower tbl s) := by
  rw [toLower_of_isASCII tbl s h]
  intro b hb
  obtain ⟨c, hc, rfl⟩ := List.mem_map.1 hb
  have hlt : c < 0x80 := by
    simp only [isASCII, List.all_eq_true, decide_eq_true_eq] at h
    exact h c hc
  unfold lowerASCII
  split_ifs with hu
  · simp only [Bool.and_eq_true, decide_eq_true_eq] at hu
    omega
  · simp only [Bool.and_eq_true, decide_eq_true_eq] at hu
    omega

theorem isLowerASCII_slice1 {s f : Str} (h : slice1 s = some f) (hs : IsLowerASCII s) :
    IsLowerASCII f := by
  cases s with
  | nil => simp [slice1] at h
  | cons b rest =>
    simp only [slice1, Option.some.injEq] at h
    subst h
    intro x hx
    exact hs x (by simp_all)

/-- Generation, when it does not panic, returns 34 candidates, each ending in
`@` and the lowercased domain. -/
theorem generateEmailPermutations_shape (tbl : Nat → Nat) (firstName lastName domain : Str)
    (out : List Str) (h : generateEmailPermutations tbl firstName lastName domain = some out) :
    out.length = 34 ∧ ∀ e ∈ out, (ascii "@" ++ toLower tbl domain) <:+ e := by
  unfold generateEmailPermutations at h
  cases hf : slice1 (toLower tbl firstName) with
  | none => simp [hf] at h
  | some f1 =>
    cases hl : slice1 (toLower tbl lastName) with
    | none => simp [hf, hl] at h
    | some l1 =>
      simp only [hf, hl, Option.some_bind, Option.some.injEq] at h
      subst h
      refine ⟨rfl, ?_⟩
      have hAt : ∀ a : Str,
          (ascii "@" ++ toLower tbl domain) <:+ a ++ ascii "@" ++ toLower tbl domain :=
        fun a => ⟨a, by simp⟩
      intro e he
      simp only [List.mem_cons, List.mem_singleton, List.not_mem_nil, or_false] at he
      rcases he with h | h | h | h | h | h | h | h | h | h | h | h | h | h | h | h | h | h | h |
        h | h | h | h | h | h | h | h | h | h | h | h | h | h | h <;>
        (rw [h]; exact hAt _)

/-- What the list covers, with `F`, `L` the lowercased names, `f`, `l` their
first bytes and `d` the lowercased domain: the four single parts; the initial
before or after the other full name, in the orders `f L`, `l F` and `L f`, with
each of the four separators; and `F l` with `.` and with no separator. -/
theorem generateEmailPermutations_covers (tbl : Nat → Nat) (firstName lastName domain : Str)
    (res : List Str) (f1 l1 : Str)
    (h : generateEmailPermutations tbl firstName lastName domain = some res)
    (hf : slice1 (toLower tbl firstName) = some f1)
    (hl : slice1 (toLower tbl lastName) = some l1) :
    (fmtAt (toLower tbl firstName) (toLower tbl domain) ∈ res ∧
        fmtAt (toLower tbl lastName) (toLower tbl domain) ∈ res ∧
        fmtAt f1 (toLower tbl domain) ∈ res ∧ fmtAt l1 (toLower tbl domain) ∈ res) ∧
      (∀ fmt ∈ [fmtCat, fmtDot, fmtUnder, fmtDash],
        fmt f1 (toLower tbl lastName) (toLower tbl domain) ∈ res ∧
        fmt l1 (toLower tbl firstName) (toLower tbl domain) ∈ res ∧
        fmt (toLower tbl lastName) f1 (toLower tbl domain) ∈ res) ∧
      (∀ fmt ∈ [fmtCat, fmtDot],
        fmt (toLower tbl firstName) l1 (toLower tbl domain) ∈ res) := by
  unfold generateEmailPermutations at h
  simp only [hf, hl, Option.some_bind, Option.some.injEq] at h
  subst h
  refine ⟨?_, ?_, ?_⟩
  · simp
  · intro fmt hfmt
    simp only [List.mem_cons, List.mem_singleton, List.not_mem_nil, or_false] at hfmt
    rcases hfmt with rfl | rfl | rfl | rfl <;> simp
  · intro fmt hfmt
    simp only [List.mem_cons, List.mem_singleton, List.not_mem_nil, or_false] at hfmt
    rcases hfmt with rfl | rfl <;> simp

/-- For ASCII names and an ASCII domain every candidate is unchanged by
lowercasing. -/
theorem generateEmailPermutations_lowercase_of_isASCII (tbl : Nat → Nat)
    (firstName lastName domain : Str) (out : List Str)
    (hf : isASCII firstName = true) (hl : isASCII lastName = true) (hd : isASCII domain = true)
    (h : generateEmailPermutations tbl firstName lastName domain = some out) :
    ∀ e ∈ out, toLower tbl e = e := by
  have hF := isLowerASCII_toLower tbl firstName hf
  have hL := isLowerASCII_toLower tbl lastName hl
  have hD := isLowerASCII_toLower tbl domain hd
  have hat : IsLowerASCII (ascii "@") := by decide
  have hdot : IsLowerASCII (ascii ".") := by decide
  have hunder : IsLowerASCII (ascii "_") := by decide
  have hdash : IsLowerASCII (ascii "-") := by decide
  unfold generateEmailPermutations at h
  cases hf1 : slice1 (toLower tbl firstName) with
  | none => simp [hf1] at h
  | some f1 =>
    cases hl1 : slice1 (toLower tbl lastName) with
    | none => simp [hf1, hl1] at h
    | some l1 =>
      simp only [hf1, hl1, Option.some_bind, Option.some.injEq] at h
      subst h
      have hf1L := isLowerASCII_slice1 hf1 hF
      have hl1L := isLowerASCII_slice1 hl1 hL
      have hAt : ∀ a : Str, IsLowerASCII a → IsLowerASCII (fmtAt a (toLower tbl domain)) :=
        fun a ha => isLowerASCII_append (isLowerASCII_append ha hat) hD
      have hDot : ∀ a b : Str, IsLowerASCII a → IsLowerASCII b →
          IsLowerASCII (fmtDot a b (toLower tbl domain)) :=
        fun a b ha hb => isLowerASCII_append (isLowerASCII_append
          (isLowerASCII_append (isLowerASCII_append ha hdot) hb) hat) hD
      have hCat : ∀ a b : Str, IsLowerASCII a → IsLowerASCII b →
          IsLowerASCII (fmtCat a b (toLower tbl domain)) :=
        fun a b ha hb => isLowerASCII_append (isLowerASCII_append
          (isLowerASCII_append ha hb) hat) hD
      have hUnder : ∀ a b : Str, IsLowerASCII a → IsLowerASCII b →
          IsLowerASCII (fmtUnder a b (toLower tbl domain)) :=
        fun a b ha hb => isLowerASCII_append (isLowerASCII_append
          (isLowerASCII_append (isLowerASCII_append ha hunder) hb) hat) hD
      have hDash : ∀ a b : Str, IsLowerASCII a → IsLowerASCII b →
          IsLowerASCII (fmtDash a b (toLower tbl domain)) :=
        fun a b ha hb => isLowerASCII_append (isLowerASCII_append
          (isLowerASCII_append (isLowerASCII_append ha hdash) hb) hat) hD
      intro e he
      apply toLower_of_isLowerASCII
      simp only [List.mem_cons, List.mem_singleton, List.not_mem_nil, or_false] at he
      rcases he with h | h | h | h | h | h | h | h | h | h | h | h | h | h | h | h | h | h | h |
        h | h | h | h | h | h | h | h | h | h | h | h | h | h | h <;>
        first
        | (rw [h]; apply hAt; assumption)
        | (rw [h]; apply hDot <;> assumption)
        | (rw [h]; apply hCat <;> assumption)
        | (rw [h]; apply hUnder <;> assumption)
        | (rw [h]; apply hDash <;> assumption)

/-! ## Candidate generation: the claims -/

/-- C1, at the request `Émile` / `Doe` / `example.com`: generation succeeds and
returns `"\xc3.doe@example.com"`, whose first byte is half of the two-byte `é`;
lowercasing that candidate replaces the stray byte by U+FFFD, so the candidate
is not unchanged by lowercasing.  The case table is only asked about `É` and
U+FFFD. -/
theorem generateEmailPermutations_initial_cuts_code_point (tbl : Nat → Nat)
    (hE : tbl 0xC9 = 0xE9) (hR : tbl 0xFFFD = 0xFFFD) :
    ∃ out, generateEmailPermutations tbl ([0xC3, 0x89] ++ ascii "mile") (ascii "Doe")
        (ascii "example.com") = some out ∧
      out.length = 34 ∧
      [0xC3] ++ ascii ".doe@example.com" ∈ out ∧
      toLower tbl ([0xC3] ++ ascii ".doe@example.com") =
        [0xEF, 0xBF, 0xBD] ++ ascii ".doe@example.com" ∧
      toLower tbl ([0xC3] ++ ascii ".doe@example.com") ≠ [0xC3] ++ ascii ".doe@example.com" := by
  have hfirst : toLower tbl ([0xC3, 0x89] ++ ascii "mile") =
      toLower (fun r => if r = 0xC9 then 0xE9 else r) ([0xC3, 0x89] ++ ascii "mile") := by
    apply toLower_congr
    intro r hr hbig
    have hmem : r ∈ [0xC9, 0x6D, 0x69, 0x6C, 0x65] := hr
    simp only [List.mem_cons, List.mem_singleton, List.not_mem_nil, or_false] at hmem
    rcases hmem with rfl | rfl | rfl | rfl | rfl <;> simp_all
  have hcand : toLower tbl ([0xC3] ++ ascii ".doe@example.com") =
      toLower (fun r => r) ([0xC3] ++ ascii ".doe@example.com") := by
    apply toLower_congr
    intro r hr hbig
    have hmem : r ∈ RuneError :: ascii ".doe@example.com" := hr
    rcases List.mem_cons.1 hmem with rfl | hmem
    · exact hR
    · exfalso
      have hsmall : ∀ x ∈ ascii ".doe@example.com", x ≤ 0x7F := by decide
      have := hsmall r hmem
      omega
  refine ⟨(generateEmailPermutations (fun r => if r = 0xC9 then 0xE9 else r)
    ([0xC3, 0x89] ++ ascii "mile") (ascii "Doe") (ascii "example.com")).getD [], ?_, ?_, ?_, ?_, ?_⟩
  · unfold generateEmailPermutations
    rw [hfirst]
    rfl
  · decide
  · decide
  · rw [hcand]
    decide
  · rw [hcand]
    decide

/-- C1, witness: the two facts asked of the case table hold for a table that
lowers `É` and leaves every other code point alone. -/
theorem generateEmailPermutations_initial_cuts_code_point_witness :
    ∃ out, generateEmailPermutations (fun r => if r = 0xC9 then 0xE9 else r)
        ([0xC3, 0x89] ++ ascii "mile") (ascii "Doe") (ascii "example.com") = some out ∧
      out.length = 34 ∧
      [0xC3] ++ ascii ".doe@example.com" ∈ out ∧
      toLower (fun r => if r = 0xC9 then 0xE9 else r) ([0xC3] ++ ascii ".doe@example.com") =
        [0xEF, 0xBF, 0xBD] ++ ascii ".doe@example.com" ∧
      toLower (fun r => if r = 0xC9 then 0xE9 else r) ([0xC3] ++ ascii ".doe@example.com") ≠
        [0xC3] ++ ascii ".doe@example.com" :=
  generateEmailPermutations_initial_cuts_code_point (fun r => if r = 0xC9 then 0xE9 else r)
    (by decide) (by decide)

/-- C2: with an empty first name, or an empty last name, generation ends in the
run-time panic of `[:1]` whatever the other arguments are: no error value is
produced.  The handler, once the cache did not answer, ends in that panic
before any probe is started, and writes no response; so it does for the request
with an empty first name, `Doe` and `example.com` on an empty store. -/
theorem generateEmailPermutations_empty_name_panics (w : World) (db : List Row)
    (name domain : Str) :
    generateEmailPermutations w.tbl [] name domain = none ∧
      generateEmailPermutations w.tbl name [] domain = none ∧
      findEmailLive w db ⟨[], name, domain⟩ = (Outcome.panicked, db, [Event.cacheQuery]) ∧
      findEmailLive w db ⟨name, [], domain⟩ = (Outcome.panicked, db, [Event.cacheQuery]) ∧
      findEmailHandler liveWorld [] (.ok ⟨[], ascii "Doe", ascii "example.com"⟩) =
        (Outcome.panicked, [], [Event.cacheQuery]) := by
  have h1 := (generateEmailPermutations_eq_none_iff w.tbl [] name domain).2 (Or.inl rfl)
  have h2 := (generateEmailPermutations_eq_none_iff w.tbl name [] domain).2 (Or.inr rfl)
  refine ⟨h1, h2, ?_, ?_, ?_⟩
  · simp [findEmailLive, h1]
  · simp [findEmailLive, h2]
  · decide

/-- C3, at `John` / `Doe` / `example.com`: the list holds the full last name
followed by the first initial with `_` and with `-`, but not the full first name
followed by the last initial with `_` or with `-`. -/
theorem generateEmailPermutations_john_doe_lacks_underscore_dash (tbl : Nat → Nat) :
    ∃ out, generateEmailPermutations tbl (ascii "John") (ascii "Doe") (ascii "example.com") =
        some out ∧
      ascii "john_d@example.com" ∉ out ∧ ascii "john-d@example.com" ∉ out ∧
      ascii "john.d@example.com" ∈ out ∧ ascii "johnd@example.com" ∈ out ∧
      ascii "doe_j@example.com" ∈ out ∧ ascii "doe-j@example.com" ∈ out := by
  refine ⟨(generateEmailPermutations (fun r => r) (ascii "John") (ascii "Doe")
    (ascii "example.com")).getD [], rfl, ?_⟩
  decide

/-- C4: the candidates for `John` / `Doe` / `example.com` include the six
addresses of the example. -/
theorem generateEmailPermutations_john_doe_example (tbl : Nat → Nat) :
    ∃ out, generateEmailPermutations tbl (ascii "John") (ascii "Doe") (ascii "example.com") =
        some out ∧
      ascii "john@example.com" ∈ out ∧ ascii "john.doe@example.com" ∈ out ∧
      ascii "johndoe@example.com" ∈ out ∧ ascii "j.doe@example.com" ∈ out ∧
      ascii "jd@example.com" ∈ out ∧ ascii "doe@example.com" ∈ out := by
  refine ⟨(generateEmailPermutations (fun r => r) (ascii "John") (ascii "Doe")
    (ascii "example.com")).getD [], rfl, ?_⟩
  decide

/-! ## One probe -/

/-- A probe that found no MX record stops after the lookup. -/
theorem verifyEmail_of_noMX (net : Net) (email domainName : Str)
    (h : noMX net domainName = true) :
    verifyEmail net email domainName = (false, [Event.lookupMX domainName]) := by
  unfold verifyEmail
  split
  · rfl
  · rfl
  · rename_i mx rest heq
    simp [noMX, heq] at h

theorem perm_cons_eraseIdx {α : Type} :
    ∀ (l : List α) (i : Nat) (g : α), l[i]? = some g → l.Perm (g :: l.eraseIdx i)
  | [], _, _, h => by simp at h
  | a :: l, 0, g, h => by
    have : a = g := by simpa using h
    subst this
    exact List.Perm.refl _
  | a :: l, i + 1, g, h => by
    have ih := perm_cons_eraseIdx l i g (by simpa using h)
    exact (List.Perm.cons a ih).trans (List.Perm.swap g a _)

/-- The join loop hands back the accepted candidates of every pending goroutine,
on top of those already collected. -/
theorem joinLoop_valid (net : Nat → Net) (pick : Nat → Nat) (domain : Str) :
    ∀ (fuel : Nat) (pending : List (Nat × Str)) (st : List Str × List Event),
      pending.length ≤ fuel →
      (joinLoop net pick domain fuel pending st).1.Perm
        (st.1 ++ (pending.filter fun g => (verifyEmail (net g.1) g.2 domain).1).map Prod.snd) := by
  intro fuel
  induction fuel with
  | zero =>
    intro pending st h
    have : pending = [] := List.length_eq_zero.1 (Nat.le_zero.1 h)
    subst this
    simp [joinLoop]
  | succ fuel ih =>
    intro pending st h
    unfold joinLoop
    cases hg : pending[pick pending.length % pending.length]? with
    | none =>
      have hlen : pending.length ≤ pick pending.length % pending.length :=
        List.getElem?_eq_none_iff.1 hg
      have : pending = [] := by
        by_contra hne
        have hpos : 0 < pending.length := List.length_pos.2 hne
        have := Nat.mod_lt (pick pending.length) hpos
        omega
      subst this
      simp
    | some g =>
      have hlt : pick pending.length % pending.length < pending.length := by
        by_contra hge
        rw [List.getElem?_eq_none (Nat.le_of_not_lt hge)] at hg
        exact Option.noConfusion hg
      have hperm := perm_cons_eraseIdx pending _ g hg
      have hlen : (pending.eraseIdx (pick pending.length % pending.length)).length ≤ fuel := by
        rw [List.length_eraseIdx_of_lt hlt]
        omega
      refine (ih _ _ hlen).trans ?_
      have hfm := (hperm.filter fun g => (verifyEmail (net g.1) g.2 domain).1).map Prod.snd
      dsimp only
      cases hv : (verifyEmail (net g.1) g.2 domain).1
      · simp only [Bool.false_eq_true, ↓reduceIte]
        refine List.Perm.append_left _ ?_
        refine List.Perm.trans ?_ hfm.symm
        simp [List.filter_cons, hv]
      · simp only [↓reduceIte, List.append_assoc]
        refine List.Perm.append_left _ ?_
        refine List.Perm.trans ?_ hfm.symm
        simp [List.filter_cons, hv]

/-- The log of the join loop holds the whole log of every pending goroutine. -/
theorem joinLoop_log (net : Nat → Net) (pick : Nat → Nat) (domain : Str) :
    ∀ (fuel : Nat) (pending : List (Nat × Str)) (st : List Str × List Event),
      pending.length ≤ fuel →
      (joinLoop net pick domain fuel pending st).2.Perm
        (st.2 ++ pending.flatMap fun g => (verifyEmail (net g.1) g.2 domain).2) := by
  intro fuel
  induction fuel with
  | zero =>
    intro pending st h
    have : pending = [] := List.length_eq_zero.1 (Nat.le_zero.1 h)
    subst this
    simp [joinLoop]
  | succ fuel ih =>
    intro pending st h
    unfold joinLoop
    cases hg : pending[pick pending.length % pending.length]? with
    | none =>
      have hlen : pending.length ≤ pick pending.length % pending.length :=
        List.getElem?_eq_none_iff.1 hg
      have : pending = [] := by
        by_contra hne
        have hpos : 0 < pending.length := List.length_pos.2 hne
        have := Nat.mod_lt (pick pending.length) hpos
        omega
      subst this
      simp
    | some g =>
      have hlt : pick pending.length % pending.length < pending.length := by
        by_contra hge
        rw [List.getElem?_eq_none (Nat.le_of_not_lt hge)] at hg
        exact Option.noConfusion hg
      have hperm := perm_cons_eraseIdx pending _ g hg
      have hlen : (pending.eraseIdx (pick pending.length % pending.length)).length ≤ fuel := by
        rw [List.length_eraseIdx_of_lt hlt]
        omega
      refine (ih _ _ hlen).trans ?_
      have hfm := hperm.flatMap_right fun g => (verifyEmail (net g.1) g.2 domain).2
      dsimp only
      rw [List.append_assoc]
      refine List.Perm.append_left _ ?_
      refine List.Perm.trans ?_ hfm.symm
      simp [List.flatMap_cons]

theorem verifyEmailsAsync_valid_perm (net : Nat → Net) (pick : Nat → Nat) (emails : List Str)
    (domain : Str) :
    (verifyEmailsAsync net pick emails domain).1.Perm
      ((emails.enum.filter fun g => (verifyEmail (net g.1) g.2 domain).1).map Prod.snd) := by
  simpa [verifyEmailsAsync] using
    joinLoop_valid net pick domain emails.length emails.enum ([], []) (by simp)

theorem verifyEmailsAsync_log_perm (net : Nat → Net) (pick : Nat → Nat) (emails : List Str)
    (domain : Str) :
    (verifyEmailsAsync net pick emails domain).2.Perm
      (emails.enum.flatMap fun g => (verifyEmail (net g.1) g.2 domain).2) := by
  simpa [verifyEmailsAsync] using
    joinLoop_log net pick domain emails.length emails.enum ([], []) (by simp)

/-- When no probe returns true the engine returns the empty list. -/
theorem verifyEmailsAsync_eq_nil (net : Nat → Net) (pick : Nat → Nat) (emails : List Str)
    (domain : Str) (h : ∀ i email, (verifyEmail (net i) email domain).1 = false) :
    (verifyEmailsAsync net pick emails domain).1 = [] := by
  have hp := verifyEmailsAsync_valid_perm net pick emails domain
  have hnil : (emails.enum.filter fun g => (verifyEmail (net g.1) g.2 domain).1) = [] := by
    apply List.filter_eq_nil_iff.2
    intro g _
    simp [h g.1 g.2]
  rw [hnil] at hp
  exact List.Perm.eq_nil hp

/-- The join loop asks the scheduler only about the numbers of goroutines that
can still be pending. -/
theorem joinLoop_congr (net : Nat → Net) (pick pick2 : Nat → Nat) (domain : Str) :
    ∀ (fuel : Nat) (pending : List (Nat × Str)) (st : List Str × List Event),
      (∀ k, k ≤ pending.length → pick k = pick2 k) →
      joinLoop net pick domain fuel pending st = joinLoop net pick2 domain fuel pending st := by
  intro fuel
  induction fuel with
  | zero =>
    intro pending st _
    rfl
  | succ fuel ih =>
    intro pending st h
    unfold joinLoop
    rw [h pending.length (Nat.le_refl _)]
    cases pending[pick2 pending.length % pending.length]? with
    | none => rfl
    | some g =>
      dsimp only
      apply ih
      intro k hk
      exact h k (Nat.le_trans hk (List.length_eraseIdx_le _ _))

/-- Every order of completion is the work of some scheduler: for each
arrangement `order` of the pending goroutines there is a `pick` under which the
join loop collects the accepted candidates, and the calls, in that order. -/
theorem joinLoop_exists_schedule (net : Nat → Net) (domain : Str) :
    ∀ (order pending : List (Nat × Str)), order.Perm pending →
      ∃ pick : Nat → Nat, ∀ (fuel : Nat) (st : List Str × List Event),
        pending.length ≤ fuel →
        joinLoop net pick domain fuel pending st =
          (st.1 ++ (order.filter fun g => (verifyEmail (net g.1) g.2 domain).1).map Prod.snd,
            st.2 ++ order.flatMap fun g => (verifyEmail (net g.1) g.2 domain).2) := by
  intro order
  induction order with
  | nil =>
    intro pending h
    have : pending = [] := List.Perm.eq_nil h.symm
    subst this
    refine ⟨fun _ => 0, fun fuel st _ => ?_⟩
    cases fuel <;> simp [joinLoop]
  | cons g rest ih =>
    intro pending h
    have hmem : g ∈ pending := h.subset (List.mem_cons_self g rest)
    obtain ⟨i, hi⟩ := List.mem_iff_getElem?.1 hmem
    have hlt : i < pending.length := by
      by_contra hge
      rw [List.getElem?_eq_none (Nat.le_of_not_lt hge)] at hi
      exact Option.noConfusion hi
    have hrest : rest.Perm (pending.eraseIdx i) :=
      List.Perm.cons_inv (h.trans (perm_cons_eraseIdx pending i g hi))
    obtain ⟨pick0, hpick0⟩ := ih (pending.eraseIdx i) hrest
    have hlen : (pending.eraseIdx i).length + 1 = pending.length := by
      rw [List.length_eraseIdx_of_lt hlt]
      omega
    refine ⟨fun k => if k = pending.length then i else pick0 k, fun fuel st hfuel => ?_⟩
    cases fuel with
    | zero => omega
    | succ fuel =>
      rw [joinLoop]
      simp only [↓reduceIte, Nat.mod_eq_of_lt hlt, hi]
      rw [joinLoop_congr net _ pick0 domain _ _ _ (by
        intro k hk
        have : k ≠ pending.length := by omega
        simp [this]), hpick0 _ _ (by omega)]
      cases hv : (verifyEmail (net g.1) g.2 domain).1 <;>
        simp [List.filter_cons, hv, List.flatMap_cons]

/-- Every arrangement of the started goroutines is a possible order of
completion of `verifyEmailsAsync`. -/
theorem verifyEmailsAsync_exists_schedule (net : Nat → Net) (emails : List Str) (domain : Str)
    (order : List (Nat × Str)) (h : order.Perm emails.enum) :
    ∃ pick : Nat → Nat, (verifyEmailsAsync net pick emails domain).1 =
      (order.filter fun g => (verifyEmail (net g.1) g.2 domain).1).map Prod.snd := by
  obtain ⟨pick, hpick⟩ := joinLoop_exists_schedule net domain order emails.enum h
  refine ⟨pick, ?_⟩
  have := hpick emails.length ([], []) (by simp)
  simp [verifyEmailsAsync, this]

/-- C6: whatever the scheduler does, `verifyEmailsAsync` returns a permutation of
the candidates whose probe returned true (each as often as it was accepted);
by then the log holds every call of every probe, so all of them have finished;
and when no probe returned true the result is the empty list. -/
theorem verifyEmailsAsync_perm (net : Nat → Net) (pick : Nat → Nat) (emails : List Str)
    (domain : Str) :
    (verifyEmailsAsync net pick emails domain).1.Perm
        ((emails.enum.filter fun g => (verifyEmail (net g.1) g.2 domain).1).map Prod.snd) ∧
      (verifyEmailsAsync net pick emails domain).2.Perm
        (emails.enum.flatMap fun g => (verifyEmail (net g.1) g.2 domain).2) ∧
      ((∀ i email, (verifyEmail (net i) email domain).1 = false) →
        (verifyEmailsAsync net pick emails domain).1 = []) :=
  ⟨verifyEmailsAsync_valid_perm net pick emails domain,
    verifyEmailsAsync_log_perm net pick emails domain,
    verifyEmailsAsync_eq_nil net pick emails domain⟩

/-- When no domain lookup finds an exchanger the engine makes no call but the
lookups. -/
theorem verifyEmailsAsync_log_of_noMX (net : Nat → Net) (pick : Nat → Nat) (emails : List Str)
    (domain : Str) (h : ∀ i, noMX (net i) domain = true) :
    ∀ ev ∈ (verifyEmailsAsync net pick emails domain).2, ev = Event.lookupMX domain := by
  intro ev hev
  have hp := verifyEmailsAsync_log_perm net pick emails domain
  rcases List.mem_flatMap.1 (hp.mem_iff.1 hev) with ⟨g, _, hg⟩
  rw [verifyEmail_of_noMX (net g.1) g.2 domain (h g.1)] at hg
  simpa using hg

/-! ## The store -/

theorem scanRows_map_ok (emails : List Str) : scanRows (emails.map .ok) = .ok emails := by
  induction emails with
  | nil => rfl
  | cons e es ih => simp [scanRows, ih]

theorem execInserts_ok (drv : Driver) (input : InputData) :
    ∀ (emails : List Str) (k : Nat) (tx : List Row),
      (execInserts drv input emails k tx).1 = none →
      (execInserts drv input emails k tx).2.1 = tx ++ rowsOf input emails
  | [], _, tx, _ => by simp [execInserts, rowsOf]
  | email :: rest, k, tx, h => by
    unfold execInserts at h ⊢
    cases hk : drv.exec k with
    | some e => simp [hk] at h
    | none =>
      simp only [hk] at h ⊢
      rw [execInserts_ok drv input rest (k + 1) _ h]
      simp [rowsOf]

/-- A committed `storeEmails` appended one row per address; any other run left
the table as it was. -/
theorem storeEmails_table (drv : Driver) (db : List Row) (input : InputData) (emails : List Str) :
    ((storeEmails drv db input emails).1 = none →
        (storeEmails drv db input emails).2.1 = db ++ rowsOf input emails) ∧
      ((storeEmails drv db input emails).1 ≠ none → (storeEmails drv db input emails).2.1 = db) := by
  unfold storeEmails
  cases hb : drv.begin with
  | some e => simp
  | none =>
    dsimp only
    have hx := execInserts_ok drv input emails 0 []
    rcases hr : execInserts drv input emails 0 [] with ⟨_ | e, tx, log⟩
    · rw [hr] at hx
      cases hc : drv.commit with
      | some e => simp
      | none =>
        have := hx rfl
        simp only [List.nil_append] at this
        simp [this]
    · simp

theorem selectCached_append (db db2 : List Row) (input : InputData) :
    selectCached (db ++ db2) input = selectCached db input ++ selectCached db2 input := by
  simp [selectCached]

theorem selectCached_rowsOf (input : InputData) (emails : List Str) :
    selectCached (rowsOf input emails) input = emails := by
  induction emails with
  | nil => rfl
  | cons e es ih =>
    simp only [rowsOf, selectCached, List.map_cons] at ih ⊢
    simpa [List.filter_cons] using ih

/-! ## The handlers -/

/-- A cache lookup that fails or finds no row leaves the request to the live
path. -/
theorem findEmailHandler_of_miss (w : World) (db : List Row) (input : InputData)
    (hmiss : ∀ e es, getCachedEmails w.drv db input ≠ .ok (e :: es)) :
    findEmailHandler w db (.ok input) = findEmailLive w db input := by
  cases h : getCachedEmails w.drv db input with
  | error e => simp [findEmailHandler, h]
  | ok cached =>
    cases cached with
    | nil => simp [findEmailHandler, h]
    | cons e es => exact absurd h (hmiss e es)

/-- The live path when generation succeeds and nothing is verified. -/
theorem findEmailLive_of_nil (w : World) (db : List Row) (input : InputData) (emails : List Str)
    (hgen : generateEmailPermutations w.tbl input.FirstName input.LastName input.CompanyWebsite =
      some emails)
    (hnil : (verifyEmailsAsync w.net w.pick emails input.CompanyWebsite).1 = []) :
    findEmailLive w db input =
      (Outcome.responded (Response.error StatusNotFound (ascii "No valid emails found")), db,
        Event.cacheQuery :: (verifyEmailsAsync w.net w.pick emails input.CompanyWebsite).2) := by
  unfold findEmailLive
  simp [hgen, hnil]

/-- The live path when generation succeeds and something is verified. -/
theorem findEmailLive_of_valid (w : World) (db : List Row) (input : InputData) (emails : List Str)
    (hgen : generateEmailPermutations w.tbl input.FirstName input.LastName input.CompanyWebsite =
      some emails)
    (hvalid : (verifyEmailsAsync w.net w.pick emails input.CompanyWebsite).1 ≠ []) :
    findEmailLive w db input =
      (Outcome.responded
          (Response.ok (verifyEmailsAsync w.net w.pick emails input.CompanyWebsite).1),
        (storeEmails w.drv db input
          (verifyEmailsAsync w.net w.pick emails input.CompanyWebsite).1).2.1,
        Event.cacheQuery :: ((verifyEmailsAsync w.net w.pick emails input.CompanyWebsite).2 ++
          (storeEmails w.drv db input
            (verifyEmailsAsync w.net w.pick emails input.CompanyWebsite).1).2.2)) := by
  unfold findEmailLive
  have : 0 < (verifyEmailsAsync w.net w.pick emails input.CompanyWebsite).1.length :=
    List.length_pos.2 hvalid
  simp [hgen, this]

/-- C7: when MX resolution of the domain fails or is empty for every probe, each
probe returns false after the lookup alone, the engine returns the empty list
and opens no connection, and `findEmailHandler`, on a cache miss with non-empty
names, answers 404, leaves the table as it was, and sends neither an insert nor
a connection. -/
theorem findEmailHandler_not_found_of_noMX (w : World) (db : List Row) (input : InputData)
    (hmx : ∀ i, noMX (w.net i) input.CompanyWebsite = true)
    (hmiss : ∀ e es, getCachedEmails w.drv db input ≠ .ok (e :: es))
    (hfirst : input.FirstName ≠ []) (hlast : input.LastName ≠ []) :
    (∀ i email, verifyEmail (w.net i) email input.CompanyWebsite =
        (false, [Event.lookupMX input.CompanyWebsite])) ∧
      (∀ pick candidates,
        (verifyEmailsAsync w.net pick candidates input.CompanyWebsite).1 = [] ∧
        dials (verifyEmailsAsync w.net pick candidates input.CompanyWebsite).2 = 0) ∧
      (findEmailHandler w db (.ok input)).1 =
        Outcome.responded (Response.error StatusNotFound (ascii "No valid emails found")) ∧
      (findEmailHandler w db (.ok input)).2.1 = db ∧
      inserts (findEmailHandler w db (.ok input)).2.2 = 0 ∧
      dials (findEmailHandler w db (.ok input)).2.2 = 0 := by
  have hprobe : ∀ i email, verifyEmail (w.net i) email input.CompanyWebsite =
      (false, [Event.lookupMX input.CompanyWebsite]) :=
    fun i email => verifyEmail_of_noMX (w.net i) email input.CompanyWebsite (hmx i)
  have hfalse : ∀ i email, (verifyEmail (w.net i) email input.CompanyWebsite).1 = false :=
    fun i email => by rw [hprobe i email]
  have hlog : ∀ pick candidates,
      ∀ ev ∈ (verifyEmailsAsync w.net pick candidates input.CompanyWebsite).2,
        ev = Event.lookupMX input.CompanyWebsite :=
    fun pick candidates =>
      verifyEmailsAsync_log_of_noMX w.net pick candidates input.CompanyWebsite hmx
  have hdial : ∀ pick candidates,
      dials (verifyEmailsAsync w.net pick candidates input.CompanyWebsite).2 = 0 := by
    intro pick candidates
    apply List.countP_eq_zero.2
    intro ev hev
    rw [hlog pick candidates ev hev]
    simp
  have hins : ∀ pick candidates,
      inserts (verifyEmailsAsync w.net pick candidates input.CompanyWebsite).2 = 0 := by
    intro pick candidates
    apply List.countP_eq_zero.2
    intro ev hev
    rw [hlog pick candidates ev hev]
    simp
  refine ⟨hprobe, fun pick candidates =>
    ⟨verifyEmailsAsync_eq_nil w.net pick candidates _ hfalse, hdial pick candidates⟩, ?_⟩
  rcases hgen : generateEmailPermutations w.tbl input.FirstName input.LastName
      input.CompanyWebsite with _ | emails
  · rcases (generateEmailPermutations_eq_none_iff _ _ _ _).1 hgen with h | h
    · exact absurd h hfirst
    · exact absurd h hlast
  · rw [findEmailHandler_of_miss w db input hmiss,
      findEmailLive_of_nil w db input emails hgen (verifyEmailsAsync_eq_nil _ _ _ _ hfalse)]
    refine ⟨rfl, rfl, ?_, ?_⟩
    · have := hins w.pick emails
      simpa [inserts] using this
    · have := hdial w.pick emails
      simpa [dials] using this

/-- C7, witness: the request `John` / `Doe` / `example.com` when the domain does
not resolve and the store is empty. -/
theorem findEmailHandler_not_found_of_noMX_witness :
    (findEmailHandler deadDomainWorld [] (.ok johnDoe)).1 =
        Outcome.responded (Response.error StatusNotFound (ascii "No valid emails found")) ∧
      (findEmailHandler deadDomainWorld [] (.ok johnDoe)).2.1 = [] :=
  have h := findEmailHandler_not_found_of_noMX deadDomainWorld [] johnDoe
    (fun _ => rfl)
    (fun _ _ => by simp [getCachedEmails, deadDomainWorld, listStore, selectCached, scanRows])
    (by decide) (by decide)
  ⟨h.2.2.1, h.2.2.2.1⟩

/-- The live path ends with a non-empty list, with 404, or in the panic of an
empty name. -/
theorem findEmailLive_outcome (w : World) (db : List Row) (input : InputData) :
    (∃ emails, emails ≠ [] ∧
        (findEmailLive w db input).1 = Outcome.responded (Response.ok emails)) ∨
      (findEmailLive w db input).1 =
        Outcome.responded (Response.error StatusNotFound (ascii "No valid emails found")) ∨
      (findEmailLive w db input).1 = Outcome.panicked := by
  rcases hgen : generateEmailPermutations w.tbl input.FirstName input.LastName
      input.CompanyWebsite with _ | emails
  · right
    right
    simp [findEmailLive, hgen]
  · by_cases hv : (verifyEmailsAsync w.net w.pick emails input.CompanyWebsite).1 = []
    · right
      left
      rw [findEmailLive_of_nil w db input emails hgen hv]
    · left
      refine ⟨_, hv, ?_⟩
      rw [findEmailLive_of_valid w db input emails hgen hv]

/-- A decoded `/find-email` request ends with a non-empty list, with 404, or in
the panic of an empty name. -/
theorem findEmailHandler_outcome (w : World) (db : List Row) (input : InputData) :
    (∃ emails, emails ≠ [] ∧
        (findEmailHandler w db (.ok input)).1 = Outcome.responded (Response.ok emails)) ∨
      (findEmailHandler w db (.ok input)).1 =
        Outcome.responded (Response.error StatusNotFound (ascii "No valid emails found")) ∨
      (findEmailHandler w db (.ok input)).1 = Outcome.panicked := by
  cases h : getCachedEmails w.drv db input with
  | error e =>
    rw [findEmailHandler_of_miss w db input (by simp [h])]
    exact findEmailLive_outcome w db input
  | ok cached =>
    cases cached with
    | nil =>
      rw [findEmailHandler_of_miss w db input (by simp [h])]
      exact findEmailLive_outcome w db input
    | cons e es =>
      left
      exact ⟨e :: es, by simp, by simp [findEmailHandler, h]⟩

/-- `searchDomainHandler` always writes a response: a non-empty list, or a 400,
500 or 404. -/
theorem searchDomainHandler_outcome (w : World) (db : List Row)
    (sbody : Except Str DomainSearchInput) :
    ∃ r, (searchDomainHandler w db sbody).1 = Outcome.responded r ∧
      ((∃ emails, emails ≠ [] ∧ r = Response.ok emails) ∨
        ∃ status msg, r = Response.error status msg ∧
          (status = StatusBadRequest ∨ status = StatusInternalServerError ∨
            status = StatusNotFound)) := by
  cases sbody with
  | error e => exact ⟨_, rfl, Or.inr ⟨_, _, rfl, Or.inl rfl⟩⟩
  | ok input =>
    cases h : getEmailsByDomain w.drv db input.Domain with
    | error e =>
      refine ⟨Response.error StatusInternalServerError (ascii "Error fetching emails"), ?_,
        Or.inr ⟨_, _, rfl, Or.inr (Or.inl rfl)⟩⟩
      simp [searchDomainHandler, h]
    | ok emails =>
      cases emails with
      | nil =>
        refine ⟨Response.error StatusNotFound (ascii "No emails found for the given domain"),
          ?_, Or.inr ⟨_, _, rfl, Or.inr (Or.inr rfl)⟩⟩
        simp [searchDomainHandler, h]
      | cons e es =>
        refine ⟨Response.ok (e :: es), ?_, Or.inl ⟨_, by simp, rfl⟩⟩
        simp [searchDomainHandler, h]

/-- C9: neither handler ever answers with a success that carries an empty list.
Each response of `findEmailHandler` is a non-empty list, a 400 (undecodable
body) or a 404, and a decoded request gets no error status but 404 (a request
with an empty name ends in a panic and gets no response); `searchDomainHandler`
always responds, with a non-empty list or a 400, 500 or 404.  A cache read that
returns no row or fails is handled exactly as the live path, and when every
probe fails, for want of an MX record or otherwise, the only response of the
live path is the 404. -/
theorem handlers_never_answer_empty_list (w : World) (db : List Row)
    (body : Except Str InputData) (sbody : Except Str DomainSearchInput) :
    (findEmailHandler w db body).1 ≠ Outcome.responded (Response.ok []) ∧
      (searchDomainHandler w db sbody).1 ≠ Outcome.responded (Response.ok []) ∧
      (∀ r, (findEmailHandler w db body).1 = Outcome.responded r →
        (∃ emails, emails ≠ [] ∧ r = Response.ok emails) ∨
          (∃ msg, r = Response.error StatusBadRequest msg) ∨
          r = Response.error StatusNotFound (ascii "No valid emails found")) ∧
      (∀ input r, (findEmailHandler w db (.ok input)).1 = Outcome.responded r →
        (∃ emails, emails ≠ [] ∧ r = Response.ok emails) ∨
          r = Response.error StatusNotFound (ascii "No valid emails found")) ∧
      (∃ r, (searchDomainHandler w db sbody).1 = Outcome.responded r ∧
        ((∃ emails, emails ≠ [] ∧ r = Response.ok emails) ∨
          ∃ status msg, r = Response.error status msg ∧
            (status = StatusBadRequest ∨ status = StatusInternalServerError ∨
              status = StatusNotFound))) ∧
      (∀ input, (getCachedEmails w.drv db input = .ok [] ∨
          ∃ e, getCachedEmails w.drv db input = .error e) →
        findEmailHandler w db (.ok input) = findEmailLive w db input) ∧
      (∀ input, (∀ i email, (verifyEmail (w.net i) email input.CompanyWebsite).1 = false) →
        ∀ r, (findEmailLive w db input).1 = Outcome.responded r →
          r = Response.error StatusNotFound (ascii "No valid emails found")) := by
  have hdecoded : ∀ input r, (findEmailHandler w db (.ok input)).1 = Outcome.responded r →
      (∃ emails, emails ≠ [] ∧ r = Response.ok emails) ∨
        r = Response.error StatusNotFound (ascii "No valid emails found") := by
    intro input r hr
    rcases findEmailHandler_outcome w db input with ⟨emails, hne, h⟩ | h | h
    · rw [h] at hr
      exact Or.inl ⟨emails, hne, (Outcome.responded.inj hr).symm⟩
    · rw [h] at hr
      exact Or.inr (Outcome.responded.inj hr).symm
    · rw [h] at hr
      exact Outcome.noConfusion hr
  have hany : ∀ r, (findEmailHandler w db body).1 = Outcome.responded r →
      (∃ emails, emails ≠ [] ∧ r = Response.ok emails) ∨
        (∃ msg, r = Response.error StatusBadRequest msg) ∨
        r = Response.error StatusNotFound (ascii "No valid emails found") := by
    intro r hr
    cases body with
    | error e => exact Or.inr (Or.inl ⟨e, (Outcome.responded.inj hr).symm⟩)
    | ok input =>
      rcases hdecoded input r hr with h | h
      · exact Or.inl h
      · exact Or.inr (Or.inr h)
  have hsearch := searchDomainHandler_outcome w db sbody
  refine ⟨?_, ?_, hany, hdecoded, hsearch, ?_, ?_⟩
  · intro h
    rcases hany _ h with ⟨emails, hne, he⟩ | ⟨msg, he⟩ | he
    · exact hne (Response.ok.inj he).symm
    · exact Response.noConfusion he
    · exact Response.noConfusion he
  · intro h
    rcases hsearch with ⟨r, hr, ⟨emails, hne, he⟩ | ⟨status, msg, he, _⟩⟩
    · rw [hr, he] at h
      exact hne (Response.ok.inj (Outcome.responded.inj h))
    · rw [hr, he] at h
      exact Response.noConfusion (Outcome.responded.inj h)
  · rintro input (h | ⟨e, h⟩)
    · exact findEmailHandler_of_miss w db input (by simp [h])
    · exact findEmailHandler_of_miss w db input (by simp [h])
  · intro input hfalse r hr
    rcases hgen : generateEmailPermutations w.tbl input.FirstName input.LastName
        input.CompanyWebsite with _ | emails
    · simp [findEmailLive, hgen] at hr
    · rw [findEmailLive_of_nil w db input emails hgen
        (verifyEmailsAsync_eq_nil _ _ _ _ hfalse)] at hr
      exact (Outcome.responded.inj hr).symm

/-! ## Two identical requests -/

/-- C8: over a store that answers its reads as the table stands, let a first
request find no row for its key, verify a non-empty list `valid`, and commit it.
Then the first call answers `valid`, the table afterwards holds exactly `valid`
for the key, and a second identical request, whatever the network and the
scheduler would do, reads `valid` from the cache, answers it, leaves the table
alone, and makes no call but the cache query: no MX lookup, no connection, no
recipient check, no insert. -/
theorem findEmailHandler_second_call_from_cache (w1 w2 : World) (db : List Row)
    (input : InputData) (emails : List Str)
    (hread1 : w1.drv.queryCache db input = .ok ((selectCached db input).map .ok))
    (hmiss : selectCached db input = [])
    (hgen : generateEmailPermutations w1.tbl input.FirstName input.LastName
      input.CompanyWebsite = some emails)
    (hvalid : (verifyEmailsAsync w1.net w1.pick emails input.CompanyWebsite).1 ≠ [])
    (hcommit : (storeEmails w1.drv db input
      (verifyEmailsAsync w1.net w1.pick emails input.CompanyWebsite).1).1 = none)
    (hread2 : ∀ db2, w2.drv.queryCache db2 input = .ok ((selectCached db2 input).map .ok)) :
    ∃ valid db1 log1, valid ≠ [] ∧
      findEmailHandler w1 db (.ok input) = (Outcome.responded (Response.ok valid), db1, log1) ∧
      db1 = db ++ rowsOf input valid ∧
      getCachedEmails w2.drv db1 input = .ok valid ∧
      findEmailHandler w2 db1 (.ok input) =
        (Outcome.responded (Response.ok valid), db1, [Event.cacheQuery]) ∧
      mxLookups (findEmailHandler w2 db1 (.ok input)).2.2 = 0 ∧
      dials (findEmailHandler w2 db1 (.ok input)).2.2 = 0 ∧
      rcpts (findEmailHandler w2 db1 (.ok input)).2.2 = 0 ∧
      inserts (findEmailHandler w2 db1 (.ok input)).2.2 = 0 := by
  have hfirst : getCachedEmails w1.drv db input = .ok [] := by
    simp [getCachedEmails, hread1, hmiss, scanRows]
  have hstore := (storeEmails_table w1.drv db input
    (verifyEmailsAsync w1.net w1.pick emails input.CompanyWebsite).1).1 hcommit
  have hsecond : getCachedEmails w2.drv
      (db ++ rowsOf input (verifyEmailsAsync w1.net w1.pick emails input.CompanyWebsite).1) input =
      .ok (verifyEmailsAsync w1.net w1.pick emails input.CompanyWebsite).1 := by
    simp [getCachedEmails, hread2, selectCached_append, hmiss, selectCached_rowsOf,
      scanRows_map_ok]
  have hcall2 : findEmailHandler w2
      (db ++ rowsOf input (verifyEmailsAsync w1.net w1.pick emails input.CompanyWebsite).1)
      (.ok input) =
      (Outcome.responded
        (Response.ok (verifyEmailsAsync w1.net w1.pick emails input.CompanyWebsite).1),
        db ++ rowsOf input (verifyEmailsAsync w1.net w1.pick emails input.CompanyWebsite).1,
        [Event.cacheQuery]) := by
    cases hv : (verifyEmailsAsync w1.net w1.pick emails input.CompanyWebsite).1 with
    | nil => exact absurd hv hvalid
    | cons e es =>
      rw [hv] at hsecond
      simp [findEmailHandler, hsecond]
  refine ⟨(verifyEmailsAsync w1.net w1.pick emails input.CompanyWebsite).1,
    db ++ rowsOf input (verifyEmailsAsync w1.net w1.pick emails input.CompanyWebsite).1,
    Event.cacheQuery :: ((verifyEmailsAsync w1.net w1.pick emails input.CompanyWebsite).2 ++
      (storeEmails w1.drv db input
        (verifyEmailsAsync w1.net w1.pick emails input.CompanyWebsite).1).2.2),
    hvalid, ?_, rfl, hsecond, hcall2, ?_⟩
  · rw [findEmailHandler_of_miss w1 db input (by simp [hfirst]),
      findEmailLive_of_valid w1 db input emails hgen hvalid, hstore]
  · rw [hcall2]
    simp [mxLookups, dials, rcpts, inserts]

/-- C8, witness: two requests `John` / `Doe` / `example.com` on an empty store
when the mail server knows `john.doe@example.com`; the second call answers that
address from the cache even though the domain no longer resolves. -/
theorem findEmailHandler_second_call_from_cache_witness :
    ∃ valid db1 log1, valid ≠ [] ∧
      findEmailHandler liveWorld [] (.ok johnDoe) =
        (Outcome.responded (Response.ok valid), db1, log1) ∧
      db1 = [] ++ rowsOf johnDoe valid ∧
      getCachedEmails deadDomainWorld.drv db1 johnDoe = .ok valid ∧
      findEmailHandler deadDomainWorld db1 (.ok johnDoe) =
        (Outcome.responded (Response.ok valid), db1, [Event.cacheQuery]) ∧
      mxLookups (findEmailHandler deadDomainWorld db1 (.ok johnDoe)).2.2 = 0 ∧
      dials (findEmailHandler deadDomainWorld db1 (.ok johnDoe)).2.2 = 0 ∧
      rcpts (findEmailHandler deadDomainWorld db1 (.ok johnDoe)).2.2 = 0 ∧
      inserts (findEmailHandler deadDomainWorld db1 (.ok johnDoe)).2.2 = 0 :=
  findEmailHandler_second_call_from_cache liveWorld deadDomainWorld [] johnDoe
    ((generateEmailPermutations (fun r => r) (ascii "John") (ascii "Doe")
      (ascii "example.com")).getD [])
    rfl rfl rfl (by decide) (by decide) (fun _ => rfl)

end EmailFinder
